import Mathlib

/-!
Shallow embedding of the hero-roster service found in `src/go/hero.go`
(primary variant) and `src/unnamed/part_000` (second variant, embedded
under the `Alt` suffix).  The roster is the Go `map[string]hero`, embedded
as an association list with Go map semantics (unique keys, in-place
update, delete).  Each HTTP handler body is embedded as a pure function
from the acquired map to an outcome together with the list of maps it
sends back into `heroMapChannel` (one entry per `heroMapChannel <- m`
statement executed), so that the acquire/release discipline is visible in
the model.  The 3-second channel timeout of `attemptToGetHeroData` is
abstracted as a boolean `timedOut` flag: `true` models the
`time.After(3 * time.Second)` branch firing.
-/

/-- Go struct `hero` (identical in both variants): fields `PowerLevel`,
`Exhaustion` (Go `int`, embedded as `Int`), `Name`, `Alive`. -/
structure hero where
  PowerLevel : Int
  Exhaustion : Int
  Name : String
  Alive : Bool
deriving DecidableEq, Repr

/-- Go struct `calamity`: a required power level and a list of hero names. -/
structure calamity where
  PowerLevel : Int
  Heroes : List String
deriving DecidableEq, Repr

/-- Go global `var maxExhaustion = 10` (never reassigned). -/
def maxExhaustion : Int := 10

/-- The Go `map[string]hero`, embedded as an association list whose keys
are kept unique by the operations below. -/
abbrev HeroMap := List (String × hero)

/-- Go map read `m[k]`: the record stored under key `k`, if any. -/
def lookup : HeroMap → String → Option hero
  | [], _ => none
  | (k0, h0) :: rest, k => if k0 = k then some h0 else lookup rest k

/-- Go map write `m[k] = h`: replace the record under `k`, or add the
key if absent. -/
def insertMap : HeroMap → String → hero → HeroMap
  | [], k, h => [(k, h)]
  | (k0, h0) :: rest, k, h =>
    if k0 = k then (k, h) :: rest else (k0, h0) :: insertMap rest k h

/-- Go `delete(m, k)`: remove the key `k`. -/
def eraseMap : HeroMap → String → HeroMap
  | [], _ => []
  | (k0, h0) :: rest, k =>
    if k0 = k then eraseMap rest k else (k0, h0) :: eraseMap rest k

/-- The HTTP-layer failure and success categories produced by the
handlers; each constructor corresponds to one `http.Error` /
`w.WriteHeader(http.StatusOK)` call site in the source. -/
inductive Outcome where
  | ok
  | okHero (h : hero)
  | emptyHeroList
  | unknownHero (name : String)
  | deadHero (name : String)
  | insufficientPower
  | alreadyExists
  | nameRetired
  | notFound
  | notAlive
  | noRestNeeded
  | alreadyDead
  | cannotRetireDead
  | resourceUnavailable
deriving DecidableEq, Repr

/-- The in-place mutation the go-variant calamity loop performs on one
hero record: `hero.Exhaustion++; if hero.Exhaustion == maxExhaustion then
hero.Alive = false` (`src/go/hero.go` lines 108-112; identically
`src/unnamed/part_000` lines 102-105). -/
def bump (h : hero) : hero :=
  let h1 : hero := { h with Exhaustion := h.Exhaustion + 1 }
  if h1.Exhaustion = maxExhaustion then { h1 with Alive := false } else h1

/-- Go `compileHeroData` (`src/go/hero.go` lines 125-141): scan the names
left to right; fail on the first absent or dead hero, otherwise return
the total power level and the list of fetched hero records in scan
order. -/
def compileHeroData : List String → HeroMap → Except Outcome (Int × List hero)
  | [], _ => .ok (0, [])
  | n :: rest, m =>
    match lookup m n with
    | none => .error (.unknownHero n)
    | some h =>
      if !h.Alive then .error (.deadHero n)
      else
        match compileHeroData rest m with
        | .error e => .error e
        | .ok (t, hs) => .ok (h.PowerLevel + t, h :: hs)

/-- The go-variant success loop (`src/go/hero.go` lines 108-114): for each
fetched record, increment exhaustion, apply death-at-cap, and store the
result under the record's `Name` field. -/
def applyCalamity : List hero → HeroMap → HeroMap
  | [], m => m
  | h :: rest, m => applyCalamity rest (insertMap m (bump h).Name (bump h))

/-- Post-acquisition body of `handleCalamity` in `src/go/hero.go`
(lines 89-117): validate every named hero, then fail when
`calamity.PowerLevel > totalPowerLevel`, else mutate every fetched hero.
The second component lists each map sent back into `heroMapChannel`. -/
def handleCalamity (c : calamity) (m : HeroMap) : Outcome × List HeroMap :=
  match compileHeroData c.Heroes m with
  | .error e => (e, [m])
  | .ok (total, hs) =>
    if total < c.PowerLevel then (.insufficientPower, [m])
    else (.ok, [applyCalamity hs m])

/-- Validation-and-copy loop of `handleCalamity` in
`src/unnamed/part_000` (lines 88-107): like `compileHeroData`, but each
fetched record is bumped immediately and the bumped copies are collected;
the map itself is untouched. -/
def compileHeroDataAlt : List String → HeroMap → Except Outcome (Int × List hero)
  | [], _ => .ok (0, [])
  | n :: rest, m =>
    match lookup m n with
    | none => .error (.unknownHero n)
    | some h =>
      if !h.Alive then .error (.deadHero n)
      else
        match compileHeroDataAlt rest m with
        | .error e => .error e
        | .ok (t, hs) => .ok (h.PowerLevel + t, bump h :: hs)

/-- Write-back loop of the `src/unnamed/part_000` success branch
(lines 110-112): store each (already bumped) copy under its `Name`. -/
def writeBack : List hero → HeroMap → HeroMap
  | [], m => m
  | h :: rest, m => writeBack rest (insertMap m h.Name h)

/-- Post-acquisition body of `handleCalamity` in `src/unnamed/part_000`
(lines 85-119): validate and bump copies in one pass, then write the
copies back only when `calamity.PowerLevel == totalPowerLevel`. -/
def handleCalamityAlt (c : calamity) (m : HeroMap) : Outcome × List HeroMap :=
  match compileHeroDataAlt c.Heroes m with
  | .error e => (e, [m])
  | .ok (total, hs) =>
    if c.PowerLevel = total then (.ok, [writeBack hs m])
    else (.insufficientPower, [m])

/-- Post-acquisition body of `heroKill` (`src/go/hero.go` lines 155-178;
identical logic in `src/unnamed/part_000` lines 134-149). -/
def heroKill (name : String) (m : HeroMap) : Outcome × List HeroMap :=
  match lookup m name with
  | none => (.notFound, [m])
  | some h =>
    if !h.Alive then (.alreadyDead, [m])
    else (.ok, [insertMap m name { h with Alive := false }])

/-- Post-acquisition body of `heroRetire` (`src/go/hero.go` lines
188-207; identical logic in `src/unnamed/part_000` lines 165-179). -/
def heroRetire (name : String) (m : HeroMap) : Outcome × List HeroMap :=
  match lookup m name with
  | none => (.notFound, [m])
  | some h =>
    if !h.Alive then (.cannotRetireDead, [m])
    else (.ok, [eraseMap m name])

/-- Post-acquisition body of `heroRest` (`src/go/hero.go` lines 217-246;
identical logic in `src/unnamed/part_000` lines 194-214). -/
def heroRest (name : String) (m : HeroMap) : Outcome × List HeroMap :=
  match lookup m name with
  | none => (.notFound, [m])
  | some h =>
    if !h.Alive then (.notAlive, [m])
    else if h.Exhaustion = 0 then (.noRestNeeded, [m])
    else (.ok, [insertMap m name { h with Exhaustion := h.Exhaustion - 1 }])

/-- Post-acquisition body of `heroGet` (`src/go/hero.go` lines 256-276;
identical logic in `src/unnamed/part_000` lines 229-247): the map is sent
back before the presence check. -/
def heroGet (name : String) (m : HeroMap) : Outcome × List HeroMap :=
  match lookup m name with
  | none => (.notFound, [m])
  | some h => (.okHero h, [m])

/-- Post-acquisition body of `heroMake` (`src/go/hero.go` lines 296-316;
identical logic in `src/unnamed/part_000` lines 267-280): `h` is the hero
unmarshalled from the request body. -/
def heroMake (h : hero) (m : HeroMap) : Outcome × List HeroMap :=
  match lookup m h.Name with
  | none => (.ok, [insertMap m h.Name { h with Alive := true }])
  | some existing =>
    if existing.Alive then (.alreadyExists, [m]) else (.nameRetired, [m])

/-- The six request kinds of the API, with the payload shapes of the
conceptual interface (`POST /hero` body carries `Name` and `PowerLevel`,
so the unmarshalled hero has Go zero values `Exhaustion = 0` and
`Alive = false` for the absent fields). -/
inductive Request where
  | create (name : String) (powerLevel : Int)
  | get (name : String)
  | rest (name : String)
  | kill (name : String)
  | retire (name : String)
  | calamity (powerLevel : Int) (heroes : List String)
deriving DecidableEq, Repr

/-- Dispatch a request to the corresponding post-acquisition handler
body (the routing of `linkRoutes`). -/
def acquiredBody : Request → HeroMap → Outcome × List HeroMap
  | .create n p, m => heroMake ⟨p, 0, n, false⟩ m
  | .get n, m => heroGet n m
  | .rest n, m => heroRest n m
  | .kill n, m => heroKill n m
  | .retire n, m => heroRetire n m
  | .calamity p ns, m => handleCalamity ⟨p, ns⟩ m

/-- Go `attemptToGetHeroData` (`src/go/hero.go` lines 326-333): receive
the map from the channel, or give up when the 3-second timer fires first
(`timedOut = true`). -/
def attemptToGetHeroData (timedOut : Bool) (m : HeroMap) : Option HeroMap :=
  if timedOut then none else some m

/-- Whether a request reaches the acquisition attempt at all: a calamity
with an empty hero list is rejected before `attemptToGetHeroData`
(`src/go/hero.go` lines 81-84). -/
def attemptsAcquisition : Request → Bool
  | .calamity _ ns => !ns.isEmpty
  | _ => true

/-- One full request against the service: `m` is the map currently held
by `heroMapChannel`; the result pairs the HTTP outcome with the map held
by the channel afterwards (the single map the handler sent back, or `m`
itself when the handler never received it). -/
def runRequest (req : Request) (timedOut : Bool) (m : HeroMap) : Outcome × HeroMap :=
  match req with
  | .calamity p ns =>
    if ns.length < 1 then (.emptyHeroList, m)
    else
      match attemptToGetHeroData timedOut m with
      | none => (.resourceUnavailable, m)
      | some mh =>
        let r := handleCalamity ⟨p, ns⟩ mh
        (r.1, r.2.headD mh)
  | _ =>
    match attemptToGetHeroData timedOut m with
    | none => (.resourceUnavailable, m)
    | some mh =>
      let r := acquiredBody req mh
      (r.1, r.2.headD mh)

/-- The roster after one request that did not hit the timeout. -/
def stepReq (m : HeroMap) (req : Request) : HeroMap :=
  (runRequest req false m).2

/-- The roster after a sequence of requests. -/
def applySeq : List Request → HeroMap → HeroMap
  | [], m => m
  | req :: rest, m => applySeq rest (stepReq m req)

/-- The roster along Scenario B of the spec: create hero `Atlas` with
power level 10, then resolve `n` successive calamities of required power
level 10 naming only `Atlas`. -/
def scenarioB : Nat → HeroMap
  | 0 => (runRequest (.create "Atlas" 10) false []).2
  | n + 1 => (runRequest (.calamity 10 ["Atlas"]) false (scenarioB n)).2

/-- The roster states reachable from the empty roster
(`make(map[string]hero)` in `main`). -/
inductive Reachable : HeroMap → Prop where
  | base : Reachable []
  | step (req : Request) {m : HeroMap} : Reachable m → Reachable (stepReq m req)

/-- A request whose create payload (if any) carries a non-negative power
level. -/
def createNN : Request → Prop
  | .create _ p => 0 ≤ p
  | _ => True

/-- The roster states reachable from the empty roster using only creates
with non-negative power levels. -/
inductive ReachableNN : HeroMap → Prop where
  | base : ReachableNN []
  | step (req : Request) {m : HeroMap} :
      ReachableNN m → createNN req → ReachableNN (stepReq m req)

/-- Every stored record's `Name` field equals its key (the handlers only
ever store a record under its own `Name`). -/
def NamesOK (m : HeroMap) : Prop := ∀ pr ∈ m, (pr.2).Name = pr.1

/-- The exhaustion bounds of one record: `0 ≤ Exhaustion ≤ maxExhaustion`
and death at the cap. -/
def heroBounds (h : hero) : Prop :=
  0 ≤ h.Exhaustion ∧ h.Exhaustion ≤ maxExhaustion ∧
    (h.Exhaustion = maxExhaustion → h.Alive = false)

/-- Exhaustion bounds for every stored record. -/
def InvExh (m : HeroMap) : Prop := ∀ pr ∈ m, heroBounds pr.2

/-- Full record invariant: non-negative power level plus the exhaustion
bounds. -/
def InvFull (m : HeroMap) : Prop :=
  ∀ pr ∈ m, 0 ≤ (pr.2).PowerLevel ∧ heroBounds pr.2

/-- Sum of the power levels the roster currently assigns to a list of
names, counting each occurrence separately (absent names count 0). -/
def powerSum (ns : List String) (m : HeroMap) : Int :=
  (ns.map (fun n => match lookup m n with
    | some h => h.PowerLevel
    | none => 0)).sum

/-! ### Basic lemmas about the map operations -/

theorem lookup_insert_self (m : HeroMap) (k : String) (h : hero) :
    lookup (insertMap m k h) k = some h := by
  induction m with
  | nil => simp [insertMap, lookup]
  | cons pr rest ih =>
    obtain ⟨k0, h0⟩ := pr
    by_cases hk : k0 = k
    · simp [insertMap, hk, lookup]
    · simp [insertMap, hk, lookup, ih]

theorem lookup_insert_ne (m : HeroMap) (k k' : String) (h : hero)
    (hne : k' ≠ k) : lookup (insertMap m k h) k' = lookup m k' := by
  have hkk : ¬(k = k') := fun hh => hne hh.symm
  induction m with
  | nil => simp [insertMap, lookup, hkk]
  | cons pr rest ih =>
    obtain ⟨k0, h0⟩ := pr
    by_cases hk : k0 = k
    · by_cases hk' : k0 = k'
      · exact absurd (hk'.symm.trans hk) hne
      · simp [insertMap, hk, lookup, hk', hkk]
    · by_cases hk' : k0 = k'
      · simp [insertMap, hk, lookup, hk', hne, hkk]
      · simp [insertMap, hk, lookup, hk', ih]

theorem lookup_erase_self (m : HeroMap) (k : String) :
    lookup (eraseMap m k) k = none := by
  induction m with
  | nil => simp [eraseMap, lookup]
  | cons pr rest ih =>
    obtain ⟨k0, h0⟩ := pr
    by_cases hk : k0 = k
    · simp [eraseMap, hk, ih]
    · simp [eraseMap, hk, lookup, ih]

theorem lookup_erase_ne (m : HeroMap) (k k' : String) (hne : k' ≠ k) :
    lookup (eraseMap m k) k' = lookup m k' := by
  have hkk : ¬(k = k') := fun hh => hne hh.symm
  induction m with
  | nil => simp [eraseMap]
  | cons pr rest ih =>
    obtain ⟨k0, h0⟩ := pr
    by_cases hk : k0 = k
    · by_cases hk' : k0 = k'
      · exact absurd (hk'.symm.trans hk) hne
      · simp [eraseMap, hk, lookup, hk', hkk, ih]
    · simp [eraseMap, hk, lookup, ih]

theorem lookup_mem {m : HeroMap} {k : String} {h : hero}
    (hl : lookup m k = some h) : (k, h) ∈ m := by
  induction m with
  | nil => simp [lookup] at hl
  | cons pr rest ih =>
    obtain ⟨k0, h0⟩ := pr
    by_cases hk : k0 = k
    · subst hk
      simp [lookup] at hl
      simp [hl]
    · simp [lookup, hk] at hl
      exact List.mem_cons_of_mem _ (ih hl)

theorem mem_insertMap {m : HeroMap} {k : String} {h : hero} {pr : String × hero}
    (hm : pr ∈ insertMap m k h) : pr ∈ m ∨ pr = (k, h) := by
  induction m with
  | nil => simp [insertMap] at hm; simp [hm]
  | cons pr0 rest ih =>
    obtain ⟨k0, h0⟩ := pr0
    by_cases hk : k0 = k
    · simp [insertMap, hk] at hm
      rcases hm with hm | hm
      · right; simp [hm]
      · left; exact List.mem_cons_of_mem _ hm
    · simp [insertMap, hk] at hm
      rcases hm with hm | hm
      · left; simp [hm]
      · rcases ih hm with hh | hh
        · left; exact List.mem_cons_of_mem _ hh
        · right; exact hh

theorem mem_eraseMap {m : HeroMap} {k : String} {pr : String × hero}
    (hm : pr ∈ eraseMap m k) : pr ∈ m := by
  induction m with
  | nil => simp [eraseMap] at hm
  | cons pr0 rest ih =>
    obtain ⟨k0, h0⟩ := pr0
    by_cases hk : k0 = k
    · simp [eraseMap, hk] at hm
      exact List.mem_cons_of_mem _ (ih hm)
    · simp [eraseMap, hk] at hm
      rcases hm with hm | hm
      · simp [hm]
      · exact List.mem_cons_of_mem _ (ih hm)

theorem mem_applyCalamity {hs : List hero} {m : HeroMap} {pr : String × hero}
    (hm : pr ∈ applyCalamity hs m) :
    pr ∈ m ∨ ∃ h ∈ hs, pr = ((bump h).Name, bump h) := by
  induction hs generalizing m with
  | nil => simp [applyCalamity] at hm; simp [hm]
  | cons h rest ih =>
    simp only [applyCalamity] at hm
    rcases ih hm with hh | ⟨h', hmem, heq⟩
    · rcases mem_insertMap hh with hh2 | hh2
      · left; exact hh2
      · right; exact ⟨h, by simp, hh2⟩
    · right; exact ⟨h', by simp [hmem], heq⟩

theorem mem_writeBack {hs : List hero} {m : HeroMap} {pr : String × hero}
    (hm : pr ∈ writeBack hs m) :
    pr ∈ m ∨ ∃ h ∈ hs, pr = (h.Name, h) := by
  induction hs generalizing m with
  | nil => simp [writeBack] at hm; simp [hm]
  | cons h rest ih =>
    simp only [writeBack] at hm
    rcases ih hm with hh | ⟨h', hmem, heq⟩
    · rcases mem_insertMap hh with hh2 | hh2
      · left; exact hh2
      · right; exact ⟨h, by simp, hh2⟩
    · right; exact ⟨h', by simp [hmem], heq⟩

theorem mem_keys_insertMap {m : HeroMap} {k k' : String} {h : hero} :
    k' ∈ (insertMap m k h).map Prod.fst ↔ k' ∈ m.map Prod.fst ∨ k' = k := by
  induction m with
  | nil => simp [insertMap]
  | cons pr rest ih =>
    obtain ⟨k0, h0⟩ := pr
    by_cases hk : k0 = k
    · simp only [insertMap, if_pos hk, List.map_cons, List.mem_cons]
      constructor
      · rintro (rfl | hh)
        · exact Or.inr rfl
        · exact Or.inl (Or.inr hh)
      · rintro ((hh | hh) | rfl)
        · exact Or.inl (hh.trans hk)
        · exact Or.inr hh
        · exact Or.inl rfl
    · simp only [insertMap, if_neg hk, List.map_cons, List.mem_cons, ih]
      tauto

theorem nodup_keys_insertMap {m : HeroMap} {k : String} {h : hero}
    (hnd : (m.map Prod.fst).Nodup) :
    ((insertMap m k h).map Prod.fst).Nodup := by
  induction m with
  | nil => simp [insertMap]
  | cons pr rest ih =>
    obtain ⟨k0, h0⟩ := pr
    simp only [List.map_cons, List.nodup_cons] at hnd
    by_cases hk : k0 = k
    · simp only [insertMap, if_pos hk, List.map_cons, List.nodup_cons]
      refine ⟨?_, hnd.2⟩
      rw [← hk]
      exact hnd.1
    · simp only [insertMap, if_neg hk, List.map_cons, List.nodup_cons]
      refine ⟨?_, ih hnd.2⟩
      intro hmem
      rcases mem_keys_insertMap.mp hmem with hh | hh
      · exact hnd.1 hh
      · exact hk hh

theorem keys_eraseMap_sublist (m : HeroMap) (k : String) :
    List.Sublist ((eraseMap m k).map Prod.fst) (m.map Prod.fst) := by
  induction m with
  | nil => simp [eraseMap]
  | cons pr rest ih =>
    obtain ⟨k0, h0⟩ := pr
    by_cases hk : k0 = k
    · simp only [eraseMap, if_pos hk, List.map_cons]
      exact ih.cons _
    · simp only [eraseMap, if_neg hk, List.map_cons]
      exact ih.cons₂ _

theorem nodup_keys_eraseMap {m : HeroMap} {k : String}
    (hnd : (m.map Prod.fst).Nodup) :
    ((eraseMap m k).map Prod.fst).Nodup :=
  hnd.sublist (keys_eraseMap_sublist m k)

theorem nodup_keys_applyCalamity {hs : List hero} {m : HeroMap}
    (hnd : (m.map Prod.fst).Nodup) :
    ((applyCalamity hs m).map Prod.fst).Nodup := by
  induction hs generalizing m with
  | nil => exact hnd
  | cons h rest ih => exact ih (nodup_keys_insertMap hnd)

/-! ### Lemmas about `compileHeroData` and the calamity write-back -/

theorem bump_Name (h : hero) : (bump h).Name = h.Name := by
  by_cases hE : h.Exhaustion + 1 = maxExhaustion <;> simp [bump, hE]

theorem bump_PowerLevel (h : hero) : (bump h).PowerLevel = h.PowerLevel := by
  by_cases hE : h.Exhaustion + 1 = maxExhaustion <;> simp [bump, hE]

theorem bump_Exhaustion (h : hero) : (bump h).Exhaustion = h.Exhaustion + 1 := by
  by_cases hE : h.Exhaustion + 1 = maxExhaustion <;> simp [bump, hE]

theorem compileHeroData_mem {ns : List String} {m : HeroMap} {t : Int}
    {hs : List hero} (hc : compileHeroData ns m = .ok (t, hs)) :
    ∀ h ∈ hs, ∃ n, lookup m n = some h ∧ h.Alive = true := by
  induction ns generalizing t hs with
  | nil =>
    simp [compileHeroData] at hc
    simp [hc.2]
  | cons n rest ih =>
    rw [compileHeroData] at hc
    cases hl : lookup m n with
    | none => simp [hl] at hc
    | some h0 =>
      by_cases ha : h0.Alive
      · cases hrec : compileHeroData rest m with
        | error e => simp [hl, ha, hrec] at hc
        | ok pr =>
          obtain ⟨t0, hs0⟩ := pr
          simp only [hl, ha, hrec, Bool.not_true, Bool.false_eq_true,
            if_false, Except.ok.injEq, Prod.mk.injEq] at hc
          intro h hmem
          rw [← hc.2] at hmem
          rcases List.mem_cons.mp hmem with rfl | hmem2
          · exact ⟨n, hl, ha⟩
          · exact ih hrec h hmem2
      · simp [hl, ha] at hc

theorem compileHeroData_names {ns : List String} {m : HeroMap} {t : Int}
    {hs : List hero} (hc : compileHeroData ns m = .ok (t, hs)) :
    ∀ n ∈ ns, ∃ h, lookup m n = some h ∧ h.Alive = true ∧ h ∈ hs := by
  induction ns generalizing t hs with
  | nil => simp
  | cons n0 rest ih =>
    rw [compileHeroData] at hc
    cases hl : lookup m n0 with
    | none => simp [hl] at hc
    | some h0 =>
      by_cases ha : h0.Alive
      · cases hrec : compileHeroData rest m with
        | error e => simp [hl, ha, hrec] at hc
        | ok pr =>
          obtain ⟨t0, hs0⟩ := pr
          simp only [hl, ha, hrec, Bool.not_true, Bool.false_eq_true,
            if_false, Except.ok.injEq, Prod.mk.injEq] at hc
          intro n hmem
          rcases List.mem_cons.mp hmem with rfl | hmem2
          · exact ⟨h0, hl, ha, by rw [← hc.2]; simp⟩
          · obtain ⟨h, hl2, ha2, hm2⟩ := ih hrec n hmem2
            exact ⟨h, hl2, ha2, by rw [← hc.2]; simp [hm2]⟩
      · simp [hl, ha] at hc

theorem compileHeroData_total {ns : List String} {m : HeroMap} {t : Int}
    {hs : List hero} (hc : compileHeroData ns m = .ok (t, hs)) :
    t = powerSum ns m := by
  induction ns generalizing t hs with
  | nil =>
    simp [compileHeroData] at hc
    simp [powerSum, hc.1]
  | cons n rest ih =>
    rw [compileHeroData] at hc
    cases hl : lookup m n with
    | none => simp [hl] at hc
    | some h0 =>
      by_cases ha : h0.Alive
      · cases hrec : compileHeroData rest m with
        | error e => simp [hl, ha, hrec] at hc
        | ok pr =>
          obtain ⟨t0, hs0⟩ := pr
          simp only [hl, ha, hrec, Bool.not_true, Bool.false_eq_true,
            if_false, Except.ok.injEq, Prod.mk.injEq] at hc
          rw [← hc.1, ih hrec]
          simp [powerSum, hl]
      · simp [hl, ha] at hc

theorem applyCalamity_lookup_notouch {hs : List hero} {m : HeroMap}
    {k : String} (hno : ∀ h' ∈ hs, h'.Name ≠ k) :
    lookup (applyCalamity hs m) k = lookup m k := by
  induction hs generalizing m with
  | nil => rfl
  | cons h rest ih =>
    simp only [applyCalamity]
    rw [ih (fun h' hm => hno h' (List.mem_cons_of_mem _ hm))]
    refine lookup_insert_ne _ _ _ _ ?_
    rw [bump_Name]
    exact fun hh => hno h (by simp) hh.symm

theorem applyCalamity_lookup_stable {hs : List hero} {m : HeroMap}
    {k : String} {v : hero} (hall : ∀ h' ∈ hs, h'.Name = k → bump h' = v)
    (hv : lookup m k = some v) :
    lookup (applyCalamity hs m) k = some v := by
  induction hs generalizing m with
  | nil => exact hv
  | cons h rest ih =>
    simp only [applyCalamity]
    by_cases hn : h.Name = k
    · refine ih (fun h' hm hh => hall h' (List.mem_cons_of_mem _ hm) hh) ?_
      rw [← hall h (by simp) hn, bump_Name, hn]
      exact lookup_insert_self _ _ _
    · refine ih (fun h' hm hh => hall h' (List.mem_cons_of_mem _ hm) hh) ?_
      rw [lookup_insert_ne _ _ _ _ (by rw [bump_Name]; exact fun hh => hn hh.symm)]
      exact hv

theorem applyCalamity_lookup_bump {hs : List hero} {m : HeroMap}
    {k : String} {h0 : hero} (hall : ∀ h' ∈ hs, h'.Name = k → h' = h0)
    (hv : lookup m k = some h0) (hex : ∃ h' ∈ hs, h'.Name = k) :
    lookup (applyCalamity hs m) k = some (bump h0) := by
  induction hs generalizing m with
  | nil => simp at hex
  | cons h rest ih =>
    simp only [applyCalamity]
    by_cases hn : h.Name = k
    · have hh0 : h = h0 := hall h (by simp) hn
      refine applyCalamity_lookup_stable
        (fun h' hm hh => by rw [hall h' (List.mem_cons_of_mem _ hm) hh]) ?_
      rw [← hh0, bump_Name, hn]
      exact lookup_insert_self _ _ _
    · obtain ⟨h', hm', hn'⟩ := hex
      rcases List.mem_cons.mp hm' with rfl | hm2
      · exact absurd hn' hn
      · refine ih (fun h'' hm hh => hall h'' (List.mem_cons_of_mem _ hm) hh)
          ?_ ⟨h', hm2, hn'⟩
        rw [lookup_insert_ne _ _ _ _ (by rw [bump_Name]; exact fun hh => hn hh.symm)]
        exact hv

/-! ### Generic preservation of per-record predicates by one request -/

theorem runRequest_calamity_cons (p : Int) (n0 : String) (ns : List String)
    (m : HeroMap) :
    runRequest (.calamity p (n0 :: ns)) false m =
      ((handleCalamity ⟨p, n0 :: ns⟩ m).1,
        (handleCalamity ⟨p, n0 :: ns⟩ m).2.headD m) := by
  simp [runRequest, attemptToGetHeroData]

theorem allPairs_stepReq (P : String × hero → Prop) (m : HeroMap)
    (req : Request)
    (hm : ∀ pr ∈ m, P pr)
    (hcreate : ∀ n p, req = .create n p → lookup m n = none →
        P (n, ⟨p, 0, n, true⟩))
    (hkill : ∀ n h, lookup m n = some h → h.Alive = true →
        P (n, { h with Alive := false }))
    (hrest : ∀ n h, lookup m n = some h → h.Alive = true →
        ¬h.Exhaustion = 0 → P (n, { h with Exhaustion := h.Exhaustion - 1 }))
    (hbump : ∀ n h, lookup m n = some h → h.Alive = true →
        P ((bump h).Name, bump h)) :
    ∀ pr ∈ stepReq m req, P pr := by
  cases req with
  | create n p =>
    intro pr hpr
    cases hl : lookup m n with
    | none =>
      simp [stepReq, runRequest, attemptToGetHeroData, acquiredBody,
        heroMake, hl] at hpr
      rcases mem_insertMap hpr with h1 | h1
      · exact hm pr h1
      · rw [h1]; exact hcreate n p rfl hl
    | some ex =>
      by_cases ha : ex.Alive <;>
        simp [stepReq, runRequest, attemptToGetHeroData, acquiredBody,
          heroMake, hl, ha] at hpr <;> exact hm pr hpr
  | get n =>
    intro pr hpr
    have hst : stepReq m (.get n) = m := by
      cases hl : lookup m n <;>
        simp [stepReq, runRequest, attemptToGetHeroData, acquiredBody,
          heroGet, hl]
    rw [hst] at hpr
    exact hm pr hpr
  | rest n =>
    intro pr hpr
    cases hl : lookup m n with
    | none =>
      simp [stepReq, runRequest, attemptToGetHeroData, acquiredBody,
        heroRest, hl] at hpr
      exact hm pr hpr
    | some h =>
      by_cases ha : h.Alive
      · by_cases hz : h.Exhaustion = 0
        · simp [stepReq, runRequest, attemptToGetHeroData, acquiredBody,
            heroRest, hl, ha, hz] at hpr
          exact hm pr hpr
        · simp [stepReq, runRequest, attemptToGetHeroData, acquiredBody,
            heroRest, hl, ha, hz] at hpr
          rcases mem_insertMap hpr with h1 | h1
          · exact hm pr h1
          · rw [h1]; exact ha ▸ hrest n h hl ha hz
      · simp [stepReq, runRequest, attemptToGetHeroData, acquiredBody,
          heroRest, hl, ha] at hpr
        exact hm pr hpr
  | kill n =>
    intro pr hpr
    cases hl : lookup m n with
    | none =>
      simp [stepReq, runRequest, attemptToGetHeroData, acquiredBody,
        heroKill, hl] at hpr
      exact hm pr hpr
    | some h =>
      by_cases ha : h.Alive
      · simp [stepReq, runRequest, attemptToGetHeroData, acquiredBody,
          heroKill, hl, ha] at hpr
        rcases mem_insertMap hpr with h1 | h1
        · exact hm pr h1
        · rw [h1]; exact hkill n h hl ha
      · simp [stepReq, runRequest, attemptToGetHeroData, acquiredBody,
          heroKill, hl, ha] at hpr
        exact hm pr hpr
  | retire n =>
    intro pr hpr
    cases hl : lookup m n with
    | none =>
      simp [stepReq, runRequest, attemptToGetHeroData, acquiredBody,
        heroRetire, hl] at hpr
      exact hm pr hpr
    | some h =>
      by_cases ha : h.Alive
      · simp [stepReq, runRequest, attemptToGetHeroData, acquiredBody,
          heroRetire, hl, ha] at hpr
        exact hm pr (mem_eraseMap hpr)
      · simp [stepReq, runRequest, attemptToGetHeroData, acquiredBody,
          heroRetire, hl, ha] at hpr
        exact hm pr hpr
  | calamity p ns =>
    intro pr hpr
    cases ns with
    | nil =>
      simp [stepReq, runRequest] at hpr
      exact hm pr hpr
    | cons n0 rest0 =>
      rw [show stepReq m (.calamity p (n0 :: rest0)) =
          (handleCalamity ⟨p, n0 :: rest0⟩ m).2.headD m from by
        rw [stepReq, runRequest_calamity_cons]] at hpr
      cases hcomp : compileHeroData (n0 :: rest0) m with
      | error e =>
        simp [handleCalamity, hcomp] at hpr
        exact hm pr hpr
      | ok tp =>
        obtain ⟨t, hs⟩ := tp
        by_cases hlt : t < p
        · simp [handleCalamity, hcomp, hlt] at hpr
          exact hm pr hpr
        · simp [handleCalamity, hcomp, hlt] at hpr
          rcases mem_applyCalamity hpr with h1 | ⟨h', hmem, heq⟩
          · exact hm pr h1
          · obtain ⟨n', hl', ha'⟩ := compileHeroData_mem hcomp h' hmem
            rw [heq]
            exact hbump n' h' hl' ha'

/-! ### Record-level invariant facts -/

theorem heroBounds_kill {h : hero} (hb : heroBounds h) :
    heroBounds { h with Alive := false } := by
  obtain ⟨a, b, _⟩ := hb
  exact ⟨a, b, fun _ => rfl⟩

theorem heroBounds_rest {h : hero} (hb : heroBounds h)
    (hz : ¬h.Exhaustion = 0) :
    heroBounds { h with Exhaustion := h.Exhaustion - 1 } := by
  obtain ⟨a, b, _⟩ := hb
  refine ⟨?_, ?_, ?_⟩
  · show 0 ≤ h.Exhaustion - 1
    omega
  · show h.Exhaustion - 1 ≤ maxExhaustion
    unfold maxExhaustion at b ⊢
    omega
  · intro hcon
    have hcon2 : h.Exhaustion - 1 = maxExhaustion := hcon
    unfold maxExhaustion at b hcon2
    exact absurd hcon2 (by omega)

theorem heroBounds_bump {h : hero} (hb : heroBounds h)
    (ha : h.Alive = true) : heroBounds (bump h) := by
  obtain ⟨a, b, c⟩ := hb
  have hne : ¬h.Exhaustion = maxExhaustion := by
    intro hcon
    rw [c hcon] at ha
    exact Bool.false_ne_true ha
  by_cases hE : h.Exhaustion + 1 = maxExhaustion
  · refine ⟨?_, ?_, ?_⟩ <;> simp [bump, hE] <;> unfold maxExhaustion at * <;> omega
  · refine ⟨?_, ?_, ?_⟩ <;> simp [bump, hE] <;> unfold maxExhaustion at * <;> omega

theorem NamesOK_stepReq {m : HeroMap} (req : Request) (hok : NamesOK m) :
    NamesOK (stepReq m req) := by
  refine allPairs_stepReq (fun pr => (pr.2).Name = pr.1) m req hok ?_ ?_ ?_ ?_
  · intro n p _ _
    rfl
  · intro n h hl _
    exact hok (n, h) (lookup_mem hl)
  · intro n h hl _ _
    exact hok (n, h) (lookup_mem hl)
  · intro n h _ _
    rfl

theorem InvExh_stepReq {m : HeroMap} (req : Request) (hinv : InvExh m) :
    InvExh (stepReq m req) := by
  refine allPairs_stepReq (fun pr => heroBounds pr.2) m req hinv ?_ ?_ ?_ ?_
  · intro n p _ _
    refine ⟨by norm_num, by norm_num [maxExhaustion], fun hcon => ?_⟩
    norm_num [maxExhaustion] at hcon
  · intro n h hl _
    exact heroBounds_kill (hinv (n, h) (lookup_mem hl))
  · intro n h hl _ hz
    exact heroBounds_rest (hinv (n, h) (lookup_mem hl)) hz
  · intro n h hl ha
    exact heroBounds_bump (hinv (n, h) (lookup_mem hl)) ha

theorem InvFull_stepReq {m : HeroMap} {req : Request} (hinv : InvFull m)
    (hnn : createNN req) : InvFull (stepReq m req) := by
  refine allPairs_stepReq (fun pr => 0 ≤ (pr.2).PowerLevel ∧ heroBounds pr.2)
    m req hinv ?_ ?_ ?_ ?_
  · intro n p hreq _
    subst hreq
    refine ⟨hnn, by norm_num, by norm_num [maxExhaustion], fun hcon => ?_⟩
    norm_num [maxExhaustion] at hcon
  · intro n h hl _
    obtain ⟨hp, hb⟩ := hinv (n, h) (lookup_mem hl)
    exact ⟨hp, heroBounds_kill hb⟩
  · intro n h hl _ hz
    obtain ⟨hp, hb⟩ := hinv (n, h) (lookup_mem hl)
    exact ⟨hp, heroBounds_rest hb hz⟩
  · intro n h hl ha
    obtain ⟨hp, hb⟩ := hinv (n, h) (lookup_mem hl)
    exact ⟨by rw [bump_PowerLevel]; exact hp, heroBounds_bump hb ha⟩

theorem nodup_keys_stepReq {m : HeroMap} (req : Request)
    (hnd : (m.map Prod.fst).Nodup) :
    ((stepReq m req).map Prod.fst).Nodup := by
  cases req with
  | create n p =>
    cases hl : lookup m n with
    | none =>
      simp only [stepReq, runRequest, attemptToGetHeroData, acquiredBody,
        heroMake, hl, if_neg (Bool.false_ne_true), List.headD]
      exact nodup_keys_insertMap hnd
    | some ex =>
      by_cases ha : ex.Alive <;>
        simp [stepReq, runRequest, attemptToGetHeroData, acquiredBody,
          heroMake, hl, ha] <;> exact hnd
  | get n =>
    cases hl : lookup m n <;>
      simp [stepReq, runRequest, attemptToGetHeroData, acquiredBody,
        heroGet, hl] <;> exact hnd
  | rest n =>
    cases hl : lookup m n with
    | none =>
      simp [stepReq, runRequest, attemptToGetHeroData, acquiredBody,
        heroRest, hl]
      exact hnd
    | some h =>
      by_cases ha : h.Alive
      · by_cases hz : h.Exhaustion = 0
        · simp [stepReq, runRequest, attemptToGetHeroData, acquiredBody,
            heroRest, hl, ha, hz]
          exact hnd
        · simp [stepReq, runRequest, attemptToGetHeroData, acquiredBody,
            heroRest, hl, ha, hz]
          exact nodup_keys_insertMap hnd
      · simp [stepReq, runRequest, attemptToGetHeroData, acquiredBody,
          heroRest, hl, ha]
        exact hnd
  | kill n =>
    cases hl : lookup m n with
    | none =>
      simp [stepReq, runRequest, attemptToGetHeroData, acquiredBody,
        heroKill, hl]
      exact hnd
    | some h =>
      by_cases ha : h.Alive
      · simp [stepReq, runRequest, attemptToGetHeroData, acquiredBody,
          heroKill, hl, ha]
        exact nodup_keys_insertMap hnd
      · simp [stepReq, runRequest, attemptToGetHeroData, acquiredBody,
          heroKill, hl, ha]
        exact hnd
  | retire n =>
    cases hl : lookup m n with
    | none =>
      simp [stepReq, runRequest, attemptToGetHeroData, acquiredBody,
        heroRetire, hl]
      exact hnd
    | some h =>
      by_cases ha : h.Alive
      · simp [stepReq, runRequest, attemptToGetHeroData, acquiredBody,
          heroRetire, hl, ha]
        exact nodup_keys_eraseMap hnd
      · simp [stepReq, runRequest, attemptToGetHeroData, acquiredBody,
          heroRetire, hl, ha]
        exact hnd
  | calamity p ns =>
    cases ns with
    | nil =>
      simp [stepReq, runRequest]
      exact hnd
    | cons n0 rest0 =>
      rw [show stepReq m (.calamity p (n0 :: rest0)) =
          (handleCalamity ⟨p, n0 :: rest0⟩ m).2.headD m from by
        rw [stepReq, runRequest_calamity_cons]]
      cases hcomp : compileHeroData (n0 :: rest0) m with
      | error e =>
        simp [handleCalamity, hcomp]
        exact hnd
      | ok tp =>
        obtain ⟨t, hs⟩ := tp
        by_cases hlt : t < p
        · simp [handleCalamity, hcomp, hlt]
          exact hnd
        · simp [handleCalamity, hcomp, hlt]
          exact nodup_keys_applyCalamity hnd

theorem reachable_NamesOK {m : HeroMap} (hr : Reachable m) : NamesOK m := by
  induction hr with
  | base => intro pr hpr; simp at hpr
  | step req _ ih => exact NamesOK_stepReq req ih

theorem reachable_nodup {m : HeroMap} (hr : Reachable m) :
    (m.map Prod.fst).Nodup := by
  induction hr with
  | base => simp
  | step req _ ih => exact nodup_keys_stepReq req ih

theorem reachable_InvExh {m : HeroMap} (hr : Reachable m) : InvExh m := by
  induction hr with
  | base => intro pr hpr; simp at hpr
  | step req _ ih => exact InvExh_stepReq req ih

theorem reachableNN_InvFull {m : HeroMap} (hr : ReachableNN m) : InvFull m := by
  induction hr with
  | base => intro pr hpr; simp at hpr
  | step req _ hnn ih => exact InvFull_stepReq ih hnn

/-! ### Further helper lemmas for the claim theorems -/

theorem compileHeroData_error_ne_ok {ns : List String} {m : HeroMap}
    {e : Outcome} (hc : compileHeroData ns m = .error e) : e ≠ .ok := by
  induction ns with
  | nil => simp [compileHeroData] at hc
  | cons n rest ih =>
    rw [compileHeroData] at hc
    cases hl : lookup m n with
    | none =>
      simp [hl] at hc
      subst hc
      simp
    | some h0 =>
      by_cases ha : h0.Alive
      · cases hrec : compileHeroData rest m with
        | error e0 =>
          simp [hl, ha, hrec] at hc
          subst hc
          exact ih hrec
        | ok pr =>
          obtain ⟨t0, hs0⟩ := pr
          simp [hl, ha, hrec] at hc
      · simp [hl, ha] at hc
        subst hc
        simp

theorem bump_dead {h : hero} (hE : (bump h).Exhaustion = maxExhaustion) :
    (bump h).Alive = false := by
  rw [bump_Exhaustion] at hE
  simp [bump, hE]

theorem calamity_ok_lookup_bump {p : Int} {ns : List String} {m : HeroMap}
    {n : String} {h : hero} (hok : NamesOK m) (hmem : n ∈ ns)
    (hsucc : (runRequest (.calamity p ns) false m).1 = .ok)
    (hl : lookup m n = some h) :
    lookup (runRequest (.calamity p ns) false m).2 n = some (bump h) := by
  cases ns with
  | nil => simp at hmem
  | cons n0 rest0 =>
    rw [runRequest_calamity_cons] at hsucc ⊢
    cases hcomp : compileHeroData (n0 :: rest0) m with
    | error e =>
      rw [handleCalamity] at hsucc
      simp only [hcomp] at hsucc
      exact absurd hsucc (compileHeroData_error_ne_ok hcomp)
    | ok tp =>
      obtain ⟨t, hs⟩ := tp
      by_cases hlt : t < p
      · rw [handleCalamity] at hsucc
        simp [hcomp, hlt] at hsucc
      · rw [handleCalamity]
        simp only [hcomp, if_neg hlt, List.headD]
        have hall : ∀ h' ∈ hs, h'.Name = n → h' = h := by
          intro h' hm' hn'
          obtain ⟨n', hl', _⟩ := compileHeroData_mem hcomp h' hm'
          have hnn : h'.Name = n' := hok (n', h') (lookup_mem hl')
          rw [hnn] at hn'
          subst hn'
          exact Option.some.inj (hl'.symm.trans hl)
        have hex : ∃ h' ∈ hs, h'.Name = n := by
          obtain ⟨h1, hl1, _, hmem1⟩ := compileHeroData_names hcomp n hmem
          have hh1 : h1 = h := Option.some.inj (hl1.symm.trans hl)
          refine ⟨h1, hmem1, ?_⟩
          rw [hh1]
          exact hok (n, h) (lookup_mem hl)
        exact applyCalamity_lookup_bump hall hl hex

theorem powerSum_filter_count (ns : List String) (m : HeroMap)
    (name : String) (h : hero) (hl : lookup m name = some h) :
    powerSum ns m =
      powerSum (ns.filter (fun x => x != name)) m +
        (ns.count name : Int) * h.PowerLevel := by
  induction ns with
  | nil => simp [powerSum]
  | cons x rest ih =>
    by_cases hx : x = name
    · subst hx
      rw [show powerSum (x :: rest) m = h.PowerLevel + powerSum rest m from by
        simp [powerSum, hl]]
      rw [show (x :: rest).filter (fun y => y != x) = rest.filter (fun y => y != x)
        from by simp [List.filter]]
      rw [show (x :: rest).count x = rest.count x + 1 from by
        simp [List.count_cons]]
      rw [ih]
      push_cast
      ring
    · rw [show powerSum (x :: rest) m =
          (match lookup m x with
            | some h0 => h0.PowerLevel
            | none => 0) + powerSum rest m from by simp [powerSum]]
      have hbx : (x != name) = true := by simp [hx]
      rw [show (x :: rest).filter (fun y => y != name) =
          x :: rest.filter (fun y => y != name) from by simp [List.filter, hbx]]
      rw [show powerSum (x :: rest.filter (fun y => y != name)) m =
          (match lookup m x with
            | some h0 => h0.PowerLevel
            | none => 0) + powerSum (rest.filter (fun y => y != name)) m from by
        simp [powerSum]]
      rw [show (x :: rest).count name = rest.count name from by
        simp [List.count_cons, hx]]
      rw [ih]
      ring

theorem dead_lookup_stepReq {m : HeroMap} {name : String} {h : hero}
    (hok : NamesOK m) (hl : lookup m name = some h) (hd : h.Alive = false)
    (req : Request) : lookup (stepReq m req) name = some h := by
  cases req with
  | create n p =>
    by_cases hn : n = name
    · subst hn
      simp [stepReq, runRequest, attemptToGetHeroData, acquiredBody,
        heroMake, hl, hd]
    · cases hl2 : lookup m n with
      | none =>
        simp [stepReq, runRequest, attemptToGetHeroData, acquiredBody,
          heroMake, hl2]
        rw [lookup_insert_ne _ _ _ _ (fun hh => hn hh.symm)]
        exact hl
      | some ex =>
        by_cases ha : ex.Alive <;>
          simp [stepReq, runRequest, attemptToGetHeroData, acquiredBody,
            heroMake, hl2, ha] <;> exact hl
  | get n =>
    cases hl2 : lookup m n <;>
      simp [stepReq, runRequest, attemptToGetHeroData, acquiredBody,
        heroGet, hl2] <;> exact hl
  | rest n =>
    by_cases hn : n = name
    · subst hn
      simp [stepReq, runRequest, attemptToGetHeroData, acquiredBody,
        heroRest, hl, hd]
    · cases hl2 : lookup m n with
      | none =>
        simp [stepReq, runRequest, attemptToGetHeroData, acquiredBody,
          heroRest, hl2]
        exact hl
      | some ex =>
        by_cases ha : ex.Alive
        · by_cases hz : ex.Exhaustion = 0
          · simp [stepReq, runRequest, attemptToGetHeroData, acquiredBody,
              heroRest, hl2, ha, hz]
            exact hl
          · simp [stepReq, runRequest, attemptToGetHeroData, acquiredBody,
              heroRest, hl2, ha, hz]
            rw [lookup_insert_ne _ _ _ _ (fun hh => hn hh.symm)]
            exact hl
        · simp [stepReq, runRequest, attemptToGetHeroData, acquiredBody,
            heroRest, hl2, ha]
          exact hl
  | kill n =>
    by_cases hn : n = name
    · subst hn
      simp [stepReq, runRequest, attemptToGetHeroData, acquiredBody,
        heroKill, hl, hd]
    · cases hl2 : lookup m n with
      | none =>
        simp [stepReq, runRequest, attemptToGetHeroData, acquiredBody,
          heroKill, hl2]
        exact hl
      | some ex =>
        by_cases ha : ex.Alive
        · simp [stepReq, runRequest, attemptToGetHeroData, acquiredBody,
            heroKill, hl2, ha]
          rw [lookup_insert_ne _ _ _ _ (fun hh => hn hh.symm)]
          exact hl
        · simp [stepReq, runRequest, attemptToGetHeroData, acquiredBody,
            heroKill, hl2, ha]
          exact hl
  | retire n =>
    by_cases hn : n = name
    · subst hn
      simp [stepReq, runRequest, attemptToGetHeroData, acquiredBody,
        heroRetire, hl, hd]
    · cases hl2 : lookup m n with
      | none =>
        simp [stepReq, runRequest, attemptToGetHeroData, acquiredBody,
          heroRetire, hl2]
        exact hl
      | some ex =>
        by_cases ha : ex.Alive
        · simp [stepReq, runRequest, attemptToGetHeroData, acquiredBody,
            heroRetire, hl2, ha]
          rw [lookup_erase_ne _ _ _ (fun hh => hn hh.symm)]
          exact hl
        · simp [stepReq, runRequest, attemptToGetHeroData, acquiredBody,
            heroRetire, hl2, ha]
          exact hl
  | calamity p ns =>
    cases ns with
    | nil =>
      simp [stepReq, runRequest]
      exact hl
    | cons n0 rest0 =>
      rw [show stepReq m (.calamity p (n0 :: rest0)) =
          (handleCalamity ⟨p, n0 :: rest0⟩ m).2.headD m from by
        rw [stepReq, runRequest_calamity_cons]]
      cases hcomp : compileHeroData (n0 :: rest0) m with
      | error e =>
        simp [handleCalamity, hcomp]
        exact hl
      | ok tp =>
        obtain ⟨t, hs⟩ := tp
        by_cases hlt : t < p
        · simp [handleCalamity, hcomp, hlt]
          exact hl
        · simp [handleCalamity, hcomp, hlt]
          rw [applyCalamity_lookup_notouch ?_]
          · exact hl
          · intro h' hm' hcon
            obtain ⟨n', hl', ha'⟩ := compileHeroData_mem hcomp h' hm'
            have hnn : h'.Name = n' := hok (n', h') (lookup_mem hl')
            rw [hnn] at hcon
            subst hcon
            have : h' = h := Option.some.inj (hl'.symm.trans hl)
            rw [this] at ha'
            rw [hd] at ha'
            exact Bool.false_ne_true ha'

theorem dead_lookup_applySeq {m : HeroMap} {name : String} {h : hero}
    (hok : NamesOK m) (hl : lookup m name = some h) (hd : h.Alive = false)
    (seq : List Request) : lookup (applySeq seq m) name = some h := by
  induction seq generalizing m with
  | nil => exact hl
  | cons req rest ih =>
    rw [applySeq]
    exact ih (NamesOK_stepReq req hok) (dead_lookup_stepReq hok hl hd req)

/-! ### Claim theorems -/

/-- C1: for every roster state and every calamity request with a
non-empty name list, if resolution fails for any reason (unknown hero,
dead hero, or the success rule not satisfied), the roster after the call
equals the roster before the call, in both source variants (for the
`src/unnamed/part_000` variant the map sent back is the untouched input
map). -/
theorem calamity_failure_leaves_roster_unchanged :
    ∀ (p : Int) (ns : List String) (m : HeroMap),
      (ns ≠ [] → (runRequest (.calamity p ns) false m).1 ≠ .ok →
        (runRequest (.calamity p ns) false m).2 = m) ∧
      ∀ c : calamity, (handleCalamityAlt c m).1 ≠ .ok →
        (handleCalamityAlt c m).2 = [m] := by
  intro p ns m
  constructor
  · intro hne hfail
    cases ns with
    | nil => exact absurd rfl hne
    | cons n0 rest0 =>
      rw [runRequest_calamity_cons] at hfail ⊢
      cases hcomp : compileHeroData (n0 :: rest0) m with
      | error e => simp [handleCalamity, hcomp]
      | ok tp =>
        obtain ⟨t, hs⟩ := tp
        by_cases hlt : t < p
        · simp [handleCalamity, hcomp, hlt]
        · rw [handleCalamity] at hfail
          simp [hcomp, hlt] at hfail
  · intro c hfail
    cases hcomp : compileHeroDataAlt c.Heroes m with
    | error e => simp [handleCalamityAlt, hcomp]
    | ok tp =>
      obtain ⟨t, hs⟩ := tp
      by_cases he : c.PowerLevel = t
      · rw [handleCalamityAlt] at hfail
        simp [hcomp, he] at hfail
      · simp [handleCalamityAlt, hcomp, he]

theorem calamity_failure_leaves_roster_unchanged_witness :
    (runRequest (.calamity 99 ["A"]) false
        [("A", ⟨5, 0, "A", true⟩)]).2 = [("A", ⟨5, 0, "A", true⟩)] ∧
      (handleCalamityAlt ⟨3, ["A"]⟩
        [("A", ⟨5, 0, "A", true⟩)]).2 = [[("A", ⟨5, 0, "A", true⟩)]] :=
  ⟨(calamity_failure_leaves_roster_unchanged 99 ["A"] _).1 (by decide) (by decide),
    (calamity_failure_leaves_roster_unchanged 99 ["A"] _).2 ⟨3, ["A"]⟩ (by decide)⟩

/-- C2: every handler body that runs after a successful acquisition of
the hero map sends the map back into the channel exactly once, on every
exit path, whether the operation succeeds or fails a domain check; this
holds for all six operations of the go variant and for the
`src/unnamed/part_000` calamity handler. -/
theorem acquired_map_sent_back_exactly_once :
    ∀ (m : HeroMap),
      (∀ req : Request, (acquiredBody req m).2.length = 1) ∧
      ∀ c : calamity, (handleCalamityAlt c m).2.length = 1 := by
  intro m
  constructor
  · intro req
    cases req with
    | create n p =>
      cases hl : lookup m n with
      | none => simp [acquiredBody, heroMake, hl]
      | some ex =>
        by_cases ha : ex.Alive <;> simp [acquiredBody, heroMake, hl, ha]
    | get n => cases hl : lookup m n <;> simp [acquiredBody, heroGet, hl]
    | rest n =>
      cases hl : lookup m n with
      | none => simp [acquiredBody, heroRest, hl]
      | some h =>
        by_cases ha : h.Alive
        · by_cases hz : h.Exhaustion = 0 <;>
            simp [acquiredBody, heroRest, hl, ha, hz]
        · simp [acquiredBody, heroRest, hl, ha]
    | kill n =>
      cases hl : lookup m n with
      | none => simp [acquiredBody, heroKill, hl]
      | some h =>
        by_cases ha : h.Alive <;> simp [acquiredBody, heroKill, hl, ha]
    | retire n =>
      cases hl : lookup m n with
      | none => simp [acquiredBody, heroRetire, hl]
      | some h =>
        by_cases ha : h.Alive <;> simp [acquiredBody, heroRetire, hl, ha]
    | calamity p ns =>
      cases hc : compileHeroData ns m with
      | error e => simp [acquiredBody, handleCalamity, hc]
      | ok tp =>
        obtain ⟨t, hs⟩ := tp
        by_cases hlt : t < p <;> simp [acquiredBody, handleCalamity, hc, hlt]
  · intro c
    cases hc : compileHeroDataAlt c.Heroes m with
    | error e => simp [handleCalamityAlt, hc]
    | ok tp =>
      obtain ⟨t, hs⟩ := tp
      by_cases he : c.PowerLevel = t <;> simp [handleCalamityAlt, hc, he]

/-- C5: a Create request for a name entirely absent from the roster
succeeds and inserts a hero with `Alive = true` and `Exhaustion = 0`; a
name held by a living hero fails with AlreadyExists, a name held by a
dead hero fails with NameRetired, and in both failure cases the roster is
unchanged. -/
theorem heroMake_create_spec :
    ∀ (n : String) (p : Int) (m : HeroMap),
      (lookup m n = none →
        runRequest (.create n p) false m =
          (.ok, insertMap m n ⟨p, 0, n, true⟩)) ∧
      (∀ ex, lookup m n = some ex → ex.Alive = true →
        runRequest (.create n p) false m = (.alreadyExists, m)) ∧
      (∀ ex, lookup m n = some ex → ex.Alive = false →
        runRequest (.create n p) false m = (.nameRetired, m)) := by
  intro n p m
  refine ⟨?_, ?_, ?_⟩
  · intro hl
    simp [runRequest, attemptToGetHeroData, acquiredBody, heroMake, hl]
  · intro ex hl ha
    simp [runRequest, attemptToGetHeroData, acquiredBody, heroMake, hl, ha]
  · intro ex hl ha
    simp [runRequest, attemptToGetHeroData, acquiredBody, heroMake, hl, ha]

theorem heroMake_create_spec_witness :
    runRequest (.create "Atlas" 10) false [] =
        (.ok, [("Atlas", ⟨10, 0, "Atlas", true⟩)]) ∧
      runRequest (.create "Atlas" 7) false [("Atlas", ⟨10, 0, "Atlas", true⟩)] =
        (.alreadyExists, [("Atlas", ⟨10, 0, "Atlas", true⟩)]) ∧
      runRequest (.create "Atlas" 7) false [("Atlas", ⟨10, 4, "Atlas", false⟩)] =
        (.nameRetired, [("Atlas", ⟨10, 4, "Atlas", false⟩)]) :=
  ⟨(heroMake_create_spec "Atlas" 10 []).1 rfl,
    (heroMake_create_spec "Atlas" 7 _).2.1 ⟨10, 0, "Atlas", true⟩ rfl rfl,
    (heroMake_create_spec "Atlas" 7 _).2.2 ⟨10, 4, "Atlas", false⟩ rfl rfl⟩

/-- C7: the two source variants implement the two stated calamity success
rules: the `src/go/hero.go` variant succeeds exactly when the total power
level is at least the required level, the `src/unnamed/part_000` variant
succeeds exactly when the total equals the required level, and on a
concrete input whose total strictly exceeds the required level the two
variants return different outcomes. -/
theorem calamity_success_rule_variants_differ :
    (∀ (p t : Int) (ns : List String) (hs : List hero) (m : HeroMap),
      ns ≠ [] → compileHeroData ns m = .ok (t, hs) →
      ((runRequest (.calamity p ns) false m).1 = .ok ↔ p ≤ t)) ∧
    (∀ (c : calamity) (t : Int) (hs : List hero) (m : HeroMap),
      compileHeroDataAlt c.Heroes m = .ok (t, hs) →
      ((handleCalamityAlt c m).1 = .ok ↔ c.PowerLevel = t)) ∧
    ((3 : Int) < 5 ∧
      (runRequest (.calamity 3 ["A"]) false
        [("A", ⟨5, 0, "A", true⟩)]).1 = .ok ∧
      (handleCalamityAlt ⟨3, ["A"]⟩
        [("A", ⟨5, 0, "A", true⟩)]).1 = .insufficientPower) := by
  refine ⟨?_, ?_, by decide⟩
  · intro p t ns hs m hne hcomp
    cases ns with
    | nil => exact absurd rfl hne
    | cons n0 rest0 =>
      rw [runRequest_calamity_cons]
      by_cases hlt : t < p
      · simp [handleCalamity, hcomp, hlt]
      · simp [handleCalamity, hcomp, hlt]
        omega
  · intro c t hs m hcomp
    by_cases he : c.PowerLevel = t <;> simp [handleCalamityAlt, hcomp, he]

theorem calamity_success_rule_variants_differ_witness :
    ((runRequest (.calamity 3 ["A"]) false
        [("A", ⟨5, 0, "A", true⟩)]).1 = .ok ↔ (3 : Int) ≤ 5) ∧
      ((handleCalamityAlt ⟨3, ["A"]⟩
        [("A", ⟨5, 0, "A", true⟩)]).1 = .ok ↔ (3 : Int) = 5) :=
  ⟨calamity_success_rule_variants_differ.1 3 5 ["A"] [⟨5, 0, "A", true⟩]
      [("A", ⟨5, 0, "A", true⟩)] (by decide) rfl,
    calamity_success_rule_variants_differ.2.1 ⟨3, ["A"]⟩ 5
      [bump ⟨5, 0, "A", true⟩] [("A", ⟨5, 0, "A", true⟩)] rfl⟩

/-- C8: when the hero map cannot be received from the channel within the
3-second bound, every operation that attempts the acquisition returns
ResourceUnavailable and the map held by the channel is unchanged; the
bound applies uniformly to Create, Get, Rest, Kill, Retire and
ResolveCalamity (a calamity with an empty hero list is the one request
rejected before any acquisition attempt). -/
theorem timeout_gives_resourceUnavailable :
    ∀ (req : Request) (m : HeroMap), attemptsAcquisition req = true →
      runRequest req true m = (.resourceUnavailable, m) := by
  intro req m hatt
  cases req with
  | create n p => simp [runRequest, attemptToGetHeroData]
  | get n => simp [runRequest, attemptToGetHeroData]
  | rest n => simp [runRequest, attemptToGetHeroData]
  | kill n => simp [runRequest, attemptToGetHeroData]
  | retire n => simp [runRequest, attemptToGetHeroData]
  | calamity p ns =>
    cases ns with
    | nil => simp [attemptsAcquisition] at hatt
    | cons n0 rest0 => simp [runRequest, attemptToGetHeroData]

theorem timeout_gives_resourceUnavailable_witness :
    runRequest (.kill "A") true [("A", ⟨5, 0, "A", true⟩)] =
        (.resourceUnavailable, [("A", ⟨5, 0, "A", true⟩)]) ∧
      runRequest (.calamity 5 ["A"]) true [("A", ⟨5, 0, "A", true⟩)] =
        (.resourceUnavailable, [("A", ⟨5, 0, "A", true⟩)]) :=
  ⟨timeout_gives_resourceUnavailable (.kill "A") _ rfl,
    timeout_gives_resourceUnavailable (.calamity 5 ["A"]) _ rfl⟩

/-- C9: on a roster whose records satisfy the exhaustion bounds (as every
reachable roster does), Rest succeeds if and only if the named hero is
present, alive, and has exhaustion greater than 0, in which case its
exhaustion decreases by exactly 1 and nothing else changes (the other
fields of the hero and all other names keep their values, and the new
exhaustion is still non-negative); otherwise it fails with NotFound when
the name is absent, NotAlive when the hero is dead, and NoRestNeeded when
exhaustion is 0, leaving the roster unchanged. -/
theorem heroRest_rest_spec :
    ∀ (n : String) (m : HeroMap), InvExh m →
      ((runRequest (.rest n) false m).1 = .ok ↔
        ∃ h, lookup m n = some h ∧ h.Alive = true ∧ 0 < h.Exhaustion) ∧
      (∀ h, lookup m n = some h → h.Alive = true → 0 < h.Exhaustion →
        lookup (runRequest (.rest n) false m).2 n =
            some { h with Exhaustion := h.Exhaustion - 1 } ∧
          (∀ k, k ≠ n → lookup (runRequest (.rest n) false m).2 k = lookup m k) ∧
          0 ≤ h.Exhaustion - 1) ∧
      (lookup m n = none → runRequest (.rest n) false m = (.notFound, m)) ∧
      (∀ h, lookup m n = some h → h.Alive = false →
        runRequest (.rest n) false m = (.notAlive, m)) ∧
      (∀ h, lookup m n = some h → h.Alive = true → h.Exhaustion = 0 →
        runRequest (.rest n) false m = (.noRestNeeded, m)) := by
  intro n m hinv
  refine ⟨⟨?_, ?_⟩, ?_, ?_, ?_, ?_⟩
  · intro hok
    cases hl : lookup m n with
    | none =>
      simp [runRequest, attemptToGetHeroData, acquiredBody, heroRest, hl] at hok
    | some h =>
      by_cases ha : h.Alive
      · by_cases hz : h.Exhaustion = 0
        · simp [runRequest, attemptToGetHeroData, acquiredBody, heroRest,
            hl, ha, hz] at hok
        · have hb1 : 0 ≤ h.Exhaustion := (hinv (n, h) (lookup_mem hl)).1
          exact ⟨h, rfl, ha, by omega⟩
      · simp [runRequest, attemptToGetHeroData, acquiredBody, heroRest,
          hl, ha] at hok
  · rintro ⟨h, hl, ha, hpos⟩
    have hz : ¬h.Exhaustion = 0 := by omega
    simp [runRequest, attemptToGetHeroData, acquiredBody, heroRest, hl, ha, hz]
  · intro h hl ha hpos
    have hz : ¬h.Exhaustion = 0 := by omega
    refine ⟨?_, ?_, by omega⟩
    · simp [runRequest, attemptToGetHeroData, acquiredBody, heroRest,
        hl, ha, hz]
      rw [show ({ h with Exhaustion := h.Exhaustion - 1, Alive := true } : hero)
          = { h with Exhaustion := h.Exhaustion - 1 } from by rw [← ha]]
      exact lookup_insert_self _ _ _
    · intro k hk
      simp [runRequest, attemptToGetHeroData, acquiredBody, heroRest,
        hl, ha, hz]
      exact lookup_insert_ne _ _ _ _ hk
  · intro hl
    simp [runRequest, attemptToGetHeroData, acquiredBody, heroRest, hl]
  · intro h hl ha
    simp [runRequest, attemptToGetHeroData, acquiredBody, heroRest, hl, ha]
  · intro h hl ha hz
    simp [runRequest, attemptToGetHeroData, acquiredBody, heroRest, hl, ha, hz]

theorem InvExh_singleton (k : String) (h : hero) (hb : heroBounds h) :
    InvExh [(k, h)] := by
  intro pr hpr
  have hpr2 : pr = (k, h) := List.mem_singleton.mp hpr
  subst hpr2
  exact hb

theorem heroRest_rest_spec_witness :
    lookup (runRequest (.rest "A") false [("A", ⟨5, 2, "A", true⟩)]).2 "A" =
        some ⟨5, 1, "A", true⟩ ∧
      runRequest (.rest "A") false [("A", ⟨5, 0, "A", true⟩)] =
        (.noRestNeeded, [("A", ⟨5, 0, "A", true⟩)]) := by
  constructor
  · have hw := ((heroRest_rest_spec "A" [("A", ⟨5, 2, "A", true⟩)]
      (InvExh_singleton "A" ⟨5, 2, "A", true⟩
        ⟨by decide, by decide, fun hcon => absurd hcon (by decide)⟩)).2.1
      ⟨5, 2, "A", true⟩ rfl rfl (by decide)).1
    simpa using hw
  · exact (heroRest_rest_spec "A" [("A", ⟨5, 0, "A", true⟩)]
      (InvExh_singleton "A" ⟨5, 0, "A", true⟩
        ⟨by decide, by decide, fun hcon => absurd hcon (by decide)⟩)).2.2.2.2
      ⟨5, 0, "A", true⟩ rfl rfl rfl

/-- C3 counterexample: the claim fails as stated, because `heroMake`
performs no validation of the unmarshalled power level, so one Create
request with power level `-1` reaches a roster state containing a hero
whose power level is negative. -/
theorem roster_invariant_negative_power_cex :
    ¬(∀ m : HeroMap, Reachable m → ∀ pr ∈ m, 0 ≤ (pr.2).PowerLevel) := by
  intro H
  have hr : Reachable (stepReq [] (.create "X" (-1))) :=
    Reachable.step (.create "X" (-1)) Reachable.base
  have hmem : ("X", (⟨-1, 0, "X", true⟩ : hero)) ∈
      stepReq [] (.create "X" (-1)) := by decide
  have hle := H _ hr _ hmem
  exact absurd hle (by decide)

/-- C3 amended: every operation preserves the full record invariant
(power level non-negative, exhaustion in `[0, maxExhaustion]`, and
exhaustion at the cap implies dead) provided Create requests carry
non-negative power levels, which the code does not itself validate; hence
every roster state reachable from the empty roster using only such
creates satisfies the full invariant, and the exhaustion bounds hold in
every reachable state with no restriction at all. -/
theorem roster_invariant_amended :
    (∀ (m : HeroMap) (req : Request), InvFull m → createNN req →
      InvFull (stepReq m req)) ∧
    (∀ m : HeroMap, ReachableNN m → InvFull m) ∧
    (∀ m : HeroMap, Reachable m → InvExh m) :=
  ⟨fun _ _ hi hnn => InvFull_stepReq hi hnn,
    fun _ hr => reachableNN_InvFull hr,
    fun _ hr => reachable_InvExh hr⟩

theorem roster_invariant_amended_witness :
    InvFull (stepReq [] (.create "A" 5)) :=
  roster_invariant_amended.2.1 _
    (ReachableNN.step (.create "A" 5) ReachableNN.base (by norm_num [createNN]))

/-- C4: when a go-variant calamity call succeeds, every named hero's
stored record becomes the `bump` of its pre-call record in that same
transaction — exhaustion incremented by exactly 1, power level and name
unchanged, and the alive flag cleared exactly when the new exhaustion
reaches `maxExhaustion`; in particular Scenario B holds: starting from a
fresh hero `Atlas` of power 10 and required level 10, the first nine
calls each succeed leaving `Atlas` alive with exhaustion 1 through 9, and
the tenth call still reports success and leaves `Atlas` dead with
exhaustion 10. -/
theorem calamity_increments_each_named_hero_once :
    (∀ (p : Int) (ns : List String) (m : HeroMap) (n : String) (h : hero),
      NamesOK m → n ∈ ns →
      (runRequest (.calamity p ns) false m).1 = .ok →
      lookup m n = some h →
      lookup (runRequest (.calamity p ns) false m).2 n = some (bump h)) ∧
    (∀ h : hero, (bump h).Exhaustion = h.Exhaustion + 1 ∧
      (bump h).PowerLevel = h.PowerLevel ∧ (bump h).Name = h.Name ∧
      ((bump h).Exhaustion = maxExhaustion → (bump h).Alive = false)) ∧
    ((∀ i : Fin 9,
        (runRequest (.calamity 10 ["Atlas"]) false (scenarioB i)).1 = .ok ∧
        lookup (scenarioB (i + 1)) "Atlas" =
          some ⟨10, (i : Nat) + 1, "Atlas", true⟩) ∧
      (runRequest (.calamity 10 ["Atlas"]) false (scenarioB 9)).1 = .ok ∧
      lookup (scenarioB 10) "Atlas" = some ⟨10, 10, "Atlas", false⟩) := by
  refine ⟨?_, ?_, by decide⟩
  · intro p ns m n h hok hmem hsucc hl
    exact calamity_ok_lookup_bump hok hmem hsucc hl
  · intro h
    exact ⟨bump_Exhaustion h, bump_PowerLevel h, bump_Name h, bump_dead⟩

theorem calamity_increments_each_named_hero_once_witness :
    lookup (runRequest (.calamity 5 ["A"]) false
        [("A", ⟨5, 0, "A", true⟩)]).2 "A" = some (bump ⟨5, 0, "A", true⟩) :=
  calamity_increments_each_named_hero_once.1 5 ["A"]
    [("A", ⟨5, 0, "A", true⟩)] "A" ⟨5, 0, "A", true⟩
    (fun pr hpr => by
      have hpr2 : pr = ("A", (⟨5, 0, "A", true⟩ : hero)) :=
        List.mem_singleton.mp hpr
      subst hpr2
      rfl)
    (by decide) (by decide) rfl

/-- C6: over every reachable roster, once Kill succeeds on a name the
resulting dead record stays in the roster unchanged under every
subsequent request sequence and every later Create of that name fails
with NameRetired; after Retire succeeds on a living hero the name is
absent and an immediately following Create of that name succeeds; and a
reachable roster never holds two records for the same name (its key list
has no duplicates). -/
theorem dead_names_permanent_retired_names_reusable :
    ∀ (m : HeroMap) (name : String), Reachable m →
      ((runRequest (.kill name) false m).1 = .ok →
        ∃ h, lookup m name = some h ∧
          ∀ seq : List Request,
            lookup (applySeq seq (runRequest (.kill name) false m).2) name =
              some { h with Alive := false } ∧
            ∀ p : Int,
              (runRequest (.create name p) false
                (applySeq seq (runRequest (.kill name) false m).2)).1 =
                .nameRetired) ∧
      ((runRequest (.retire name) false m).1 = .ok →
        lookup (runRequest (.retire name) false m).2 name = none ∧
        ∀ p : Int,
          (runRequest (.create name p) false
            (runRequest (.retire name) false m).2).1 = .ok) ∧
      (m.map Prod.fst).Nodup := by
  intro m name hreach
  have hok : NamesOK m := reachable_NamesOK hreach
  refine ⟨?_, ?_, reachable_nodup hreach⟩
  · intro hkill
    cases hl : lookup m name with
    | none =>
      simp [runRequest, attemptToGetHeroData, acquiredBody, heroKill, hl]
        at hkill
    | some h =>
      by_cases ha : h.Alive
      · have hrun : runRequest (.kill name) false m =
            (.ok, insertMap m name { h with Alive := false }) := by
          simp [runRequest, attemptToGetHeroData, acquiredBody, heroKill,
            hl, ha]
        refine ⟨h, rfl, ?_⟩
        intro seq
        have hok2 : NamesOK (runRequest (.kill name) false m).2 :=
          NamesOK_stepReq (.kill name) hok
        have hl2 : lookup (runRequest (.kill name) false m).2 name =
            some { h with Alive := false } := by
          rw [hrun]
          exact lookup_insert_self _ _ _
        have hseq : lookup
            (applySeq seq (runRequest (.kill name) false m).2) name =
            some { h with Alive := false } :=
          dead_lookup_applySeq hok2 hl2 rfl seq
        refine ⟨hseq, ?_⟩
        intro p
        revert hseq
        generalize applySeq seq (runRequest (.kill name) false m).2 = s
        intro hseq
        simp [runRequest, attemptToGetHeroData, acquiredBody, heroMake, hseq]
      · simp [runRequest, attemptToGetHeroData, acquiredBody, heroKill,
          hl, ha] at hkill
  · intro hret
    cases hl : lookup m name with
    | none =>
      simp [runRequest, attemptToGetHeroData, acquiredBody, heroRetire, hl]
        at hret
    | some h =>
      by_cases ha : h.Alive
      · have hrun : runRequest (.retire name) false m =
            (.ok, eraseMap m name) := by
          simp [runRequest, attemptToGetHeroData, acquiredBody, heroRetire,
            hl, ha]
        rw [hrun]
        have hgone : lookup (eraseMap m name) name = none :=
          lookup_erase_self m name
        refine ⟨hgone, ?_⟩
        intro p
        simp [runRequest, attemptToGetHeroData, acquiredBody, heroMake, hgone]
      · simp [runRequest, attemptToGetHeroData, acquiredBody, heroRetire,
          hl, ha] at hret

theorem dead_names_permanent_retired_names_reusable_witness :
    (runRequest (.create "A" 3) false
      (runRequest (.retire "A") false (stepReq [] (.create "A" 5))).2).1 =
      .ok :=
  ((dead_names_permanent_retired_names_reusable
      (stepReq [] (.create "A" 5)) "A"
      (Reachable.step (.create "A" 5) Reachable.base)).2.1 (by decide)).2 3

/-- C10: when a name occurs `k > 1` times in the calamity list of the go
variant, the validated total equals the roster-weighted sum over all
occurrences — the duplicated hero's power level is counted `k` times —
yet a successful call stores exactly the single `bump` of that hero's
pre-call record, so its exhaustion rises by 1, not by `k`, because every
write-back stores the same value derived from the pre-call record. -/
theorem duplicate_names_power_counted_k_times_exhaustion_once :
    ∀ (p : Int) (ns : List String) (m : HeroMap) (name : String) (h : hero),
      NamesOK m → lookup m name = some h → h.Alive = true →
      1 < ns.count name →
      (∀ (t : Int) (hs : List hero), compileHeroData ns m = .ok (t, hs) →
        t = powerSum ns m ∧
        powerSum ns m =
          powerSum (ns.filter (fun x => x != name)) m +
            (ns.count name : Int) * h.PowerLevel) ∧
      ((runRequest (.calamity p ns) false m).1 = .ok →
        lookup (runRequest (.calamity p ns) false m).2 name =
          some (bump h)) := by
  intro p ns m name h hok hl ha hcount
  have hmem : name ∈ ns := List.count_pos_iff.mp (by omega)
  constructor
  · intro t hs hcomp
    exact ⟨compileHeroData_total hcomp, powerSum_filter_count ns m name h hl⟩
  · intro hsucc
    exact calamity_ok_lookup_bump hok hmem hsucc hl

theorem duplicate_names_power_counted_k_times_exhaustion_once_witness :
    lookup (runRequest (.calamity 10 ["A", "A"]) false
        [("A", ⟨5, 2, "A", true⟩)]).2 "A" = some (bump ⟨5, 2, "A", true⟩) :=
  (duplicate_names_power_counted_k_times_exhaustion_once 10 ["A", "A"]
      [("A", ⟨5, 2, "A", true⟩)] "A" ⟨5, 2, "A", true⟩
      (fun pr hpr => by
        have hpr2 : pr = ("A", (⟨5, 2, "A", true⟩ : hero)) :=
          List.mem_singleton.mp hpr
        subst hpr2
        rfl)
      rfl rfl (by decide)).2 (by decide)
